import Mathlib

/-!
Verification development for the video trimming service in
`src/Custom_Projects6/Video_Trim/main.py`.

The service keeps completed videos in the storage directory `/app/videos`,
serves them over HTTP, trims new ones from a downloaded source via an external
transcoder, and deletes stored files older than one hour with a recurring
sweep.  This file gives a shallow embedding of the handlers `serve_video`,
`cleanup_old_videos`, `trim_video`, `health` and `manual_cleanup` over an
explicit filesystem state, and proves or refutes the specified properties.

Modelling conventions:
* The filesystem is an association list from resolved absolute paths
  (lists of path segments) to entries; a regular file carries its
  modification time (an integer number of seconds) and its byte content.
* `os.path.join` and kernel-level path resolution (handling of `..`, `.`
  and repeated separators) are embedded over `String.data` so that every
  definition evaluates inside the kernel.
* Fallible operating-system calls that the source reacts to (the download,
  the transcoder invocation, `os.remove`, `os.stat`, `os.listdir`) are
  parameters of the embedding; a `none`/`false` oracle is the run in which
  the call succeeds.
-/

/-- An absolute filesystem path, as the list of its segments after resolution. -/
abbrev SegPath := List String

/-- A directory entry: a regular file (with modification time in integer
seconds and byte content) or a directory. -/
inductive Entry where
  | file (mtime : Int) (content : List Nat)
  | dir
deriving DecidableEq

/-- The filesystem state: an association list from resolved absolute paths to
entries.  Real directory states have pairwise distinct paths; theorems that
need this carry it as a `Nodup` hypothesis on the keys. -/
abbrev Fs := List (SegPath × Entry)

/-- The entry stored at path `p` (first match; an OS-level lookup). -/
def Fs.lookup : Fs → SegPath → Option Entry
  | [], _ => none
  | (q, e) :: rest, p => if p = q then some e else Fs.lookup rest p

/-- The check `os.path.exists`. -/
def Fs.pathExists (fs : Fs) (p : SegPath) : Bool := (Fs.lookup fs p).isSome

/-- The check `os.path.isfile`. -/
def Fs.isfile (fs : Fs) (p : SegPath) : Bool :=
  match Fs.lookup fs p with
  | some (Entry.file _ _) => true
  | _ => false

/-- A successful `os.remove p`: the entry at `p` disappears. -/
def Fs.remove : Fs → SegPath → Fs
  | [], _ => []
  | (q, e) :: rest, p => if q = p then Fs.remove rest p else (q, e) :: Fs.remove rest p

/-- Creating or overwriting the file at `p` (the `open(path, 'wb')` write),
stamping the current time as its modification time. -/
def Fs.write (fs : Fs) (p : SegPath) (e : Entry) : Fs := (p, e) :: Fs.remove fs p

/-- The relocation `shutil.move src dst`: the entry at `src` is relocated to `dst`,
overwriting any previous entry at `dst`. -/
def Fs.move (fs : Fs) (src dst : SegPath) : Fs :=
  match Fs.lookup fs src with
  | some e => Fs.write (Fs.remove fs src) dst e
  | none => fs

/-- The name `n` such that `p = d ++ [n]`, when `p` is a direct child of the
directory `d`; `none` otherwise. -/
def childName (d p : SegPath) : Option String :=
  if p.take d.length = d ∧ p.length = d.length + 1 then p.getLast? else none

/-- The listing `os.listdir d`: the names of the direct children of directory `d`, in
filesystem order. -/
def Fs.children (fs : Fs) (d : SegPath) : List String :=
  fs.filterMap (fun pe => childName d pe.1)

/-- Split a raw path string at every separator character, like the kernel
does when resolving a path (`"/a//b" ↦ ["", "a", "", "b"]`). -/
def splitOnSlash : List Char → List (List Char)
  | [] => [[]]
  | c :: rest =>
    match splitOnSlash rest, decide (c = '/') with
    | r, true => [] :: r
    | s :: ss, false => (c :: s) :: ss
    | [], false => [[c]]

/-- Resolve a stack of already-accepted segments (most recent first) against
the remaining raw segments: empty segments and `.` are skipped, `..` pops the
previous segment (staying at the root when there is none). -/
def normSegs : List String → List String → List String
  | stack, [] => stack.reverse
  | stack, seg :: rest =>
    if seg = "" ∨ seg = "." then normSegs stack rest
    else if seg = ".." then normSegs (stack.drop 1) rest
    else normSegs (seg :: stack) rest

/-- OS-level resolution of an absolute path string to its segment list:
the path the kernel actually opens for that string. -/
def resolve (path : String) : SegPath :=
  normSegs [] ((splitOnSlash path.data).map (fun cs => String.mk cs))

/-- Whether a string starts with the path separator. -/
def headIsSlash (s : String) : Bool :=
  match s.data with
  | c :: _ => c == '/'
  | [] => false

/-- Whether a string ends with the path separator. -/
def lastIsSlash (s : String) : Bool :=
  match s.data.getLast? with
  | some c => c == '/'
  | none => false

/-- The join `os.path.join a b` for one extra component, exactly as in posixpath:
an absolute `b` discards `a`; otherwise `b` is appended, inserting a
separator unless `a` is empty or already ends with one. -/
def osPathJoin (a b : String) : String :=
  if headIsSlash b then b
  else if a = "" ∨ lastIsSlash a then a ++ b
  else a ++ "/" ++ b

/-- The constant `VIDEOS_DIR = "/app/videos"` from the source. -/
def VIDEOS_DIR : String := "/app/videos"

/-- The resolved storage directory path. -/
def videosSegs : SegPath := ["app", "videos"]

/-- The outcome of an HTTP handler: a successful payload, a raised
`HTTPException` with status code and detail, or an exception that escaped the
handler uncaught. -/
inductive HandlerResult (α : Type) where
  | ok (val : α)
  | httpError (status : Nat) (detail : String)
  | uncaught (msg : String)
deriving DecidableEq

/-- The response of `serve_video`: a `FileResponse` for the given path with
the given media type. -/
structure FileResp where
  path : String
  mediaType : String
deriving DecidableEq

/-- The handler of GET /video/<filename>: joins the requested filename onto `VIDEOS_DIR`
with no sanitization, returns 404 when nothing exists at the joined path, and
otherwise serves whatever the joined path resolves to as `video/mp4`. -/
def serve_video (fs : Fs) (filename : String) : HandlerResult FileResp :=
  let file_path := osPathJoin VIDEOS_DIR filename
  if Fs.pathExists fs (resolve file_path) then
    HandlerResult.ok { path := file_path, mediaType := "video/mp4" }
  else
    HandlerResult.httpError 404 "Video not found"

/-- The bytes a `FileResponse` for `path` actually sends: the content of the
file the OS finds at the resolved path. -/
def servedBytes (fs : Fs) (path : String) : Option (List Nat) :=
  match Fs.lookup fs (resolve path) with
  | some (Entry.file _ c) => some c
  | _ => none

/-- Whether a resolved path lies inside the storage directory. -/
def insideStorage (p : SegPath) : Bool := videosSegs.isPrefixOf p

/-- A filesystem state holding a file at `/app/secret`, outside the storage
directory, and an empty storage directory. -/
def fsWithSecret : Fs := [(["app", "secret"], Entry.file 0 [9, 9])]

/-- How stale an entry looks to the sweep: a regular file whose age
`now - mtime` strictly exceeds the one-hour retention threshold. -/
def isStaleEntry (o : Option Entry) (now : Int) : Bool :=
  match o with
  | some (Entry.file m _) => decide (now - m > 3600)
  | _ => false

/-- The paths one sweep pass deletes: direct children of the storage
directory holding a regular file older than 3600 seconds. -/
def staleAt (fs : Fs) (now : Int) (p : SegPath) : Bool :=
  (childName videosSegs p).isSome && isStaleEntry (Fs.lookup fs p) now

/-- The `for filename in os.listdir(VIDEOS_DIR)` loop of `cleanup_old_videos`:
for each listed name, skip non-files, read the modification time (`statF name`
is true when that `os.stat` raises), delete files older than 3600 seconds
(`remF name` is true when that `os.remove` raises).  A raised error aborts the
rest of the loop; the returned `Option String` is the escaped error, caught
only by the handler around the whole loop. -/
def sweepLoop (now : Int) (statF remF : String → Bool) : Fs → List String → Fs × Option String
  | fs, [] => (fs, none)
  | fs, name :: rest =>
    match Fs.lookup fs (videosSegs ++ [name]) with
    | some (Entry.file m _) =>
      if statF name then (fs, some ("stat failed: " ++ name))
      else if now - m > 3600 then
        if remF name then (fs, some ("remove failed: " ++ name))
        else sweepLoop now statF remF (Fs.remove fs (videosSegs ++ [name])) rest
      else sweepLoop now statF remF fs rest
    | _ => sweepLoop now statF remF fs rest

/-- The sweep `cleanup_old_videos`: list the storage directory (`listF` is true when
`os.listdir` raises) and run the sweep loop; the single `try/except` around
the whole body catches any raised error, so the function always returns the
filesystem reached so far, together with the swallowed (logged-only) error. -/
def cleanup_old_videos (fs : Fs) (now : Int) (listF : Bool) (statF remF : String → Bool) :
    Fs × Option String :=
  if listF then (fs, some "listdir failed")
  else sweepLoop now statF remF fs (Fs.children fs videosSegs)

/-- The JSON payload of `GET /cleanup`. -/
structure CleanupPayload where
  message : String
  videos_remaining : Nat
deriving DecidableEq

/-- The handler of GET /cleanup: trigger one sweep pass, then report the storage
directory's entry count. -/
def manual_cleanup (fs : Fs) (now : Int) (listF : Bool) (statF remF : String → Bool) :
    Fs × HandlerResult CleanupPayload :=
  let swept := cleanup_old_videos fs now listF statF remF
  (swept.1,
    HandlerResult.ok
      { message := "Cleanup triggered",
        videos_remaining := (Fs.children swept.1 videosSegs).length })

/-- The JSON payload of `GET /health`. -/
structure HealthPayload where
  status : String
  videos_stored : Nat
  cleanup_schedule : String
  retention : String
deriving DecidableEq

/-- The handler of GET /health: a read-only report; `videos_stored` is
`len(os.listdir(VIDEOS_DIR))`. -/
def health (fs : Fs) : HealthPayload :=
  { status := "healthy",
    videos_stored := (Fs.children fs videosSegs).length,
    cleanup_schedule := "Every 30 minutes",
    retention := "1 hour" }

/-- The number of regular files among the storage directory's entries (what
the specification calls the directory's file count). -/
def storageFileCount (fs : Fs) : Nat :=
  ((Fs.children fs videosSegs).filter (fun n => Fs.isfile fs (videosSegs ++ [n]))).length

/-- The body of `POST /trim`: source URL and trim parameters, with the
source's defaults. -/
structure TrimRequest where
  video_url : String
  start_time : ℚ := 0
  end_time : ℚ := 7
  fade_duration : ℚ := 1/2
deriving DecidableEq

/-- The fade-out start offset the handler passes to the transcoder:
`end_time - start_time - fade_duration` (not validated by the source). -/
def fade_start (req : TrimRequest) : ℚ :=
  req.end_time - req.start_time - req.fade_duration

/-- The outcome of the transcoder subprocess: success with the produced
output bytes; a non-zero exit (its stderr, and any half-written output file);
or an exception from the invocation itself, such as a timeout (its message,
and any half-written output file). -/
inductive TranscodeOutcome where
  | ok (output : List Nat)
  | fail (stderr : String) (strayOutput : Option (List Nat))
  | raised (msg : String) (strayOutput : Option (List Nat))
deriving DecidableEq

/-- Whether the transcoder exited successfully. -/
def TranscodeOutcome.succeeded : TranscodeOutcome → Bool
  | TranscodeOutcome.ok _ => true
  | _ => false

/-- The original error detail `str(e)` that a failed transcode step carries
into the except block: the FFmpeg-prefixed stderr for a non-zero exit, or the
raised exception's message (e.g. a timeout). -/
def TranscodeOutcome.origDetail : TranscodeOutcome → String
  | TranscodeOutcome.ok _ => ""
  | TranscodeOutcome.fail stderr _ => "FFmpeg failed: " ++ stderr
  | TranscodeOutcome.raised msg _ => msg

/-- Any half-written temp output file a failed transcode step left behind. -/
def TranscodeOutcome.stray : TranscodeOutcome → Option (List Nat)
  | TranscodeOutcome.ok _ => none
  | TranscodeOutcome.fail _ s => s
  | TranscodeOutcome.raised _ s => s


/-- One request's interaction with the outside world: the result of the
download (`requests.get` + `raise_for_status`), the transcoder outcome, and
which `os.remove` calls raise (with their error message). -/
structure TrimEnv where
  fetch : Except String (List Nat)
  transcode : TranscodeOutcome
  removeFails : SegPath → Option String

/-- The JSON payload of a successful `POST /trim`. -/
structure TrimResponse where
  success : Bool
  video_url : String
  message : String
deriving DecidableEq

/-- The temp input path `/tmp/<id>_input.mp4`. -/
def inputSegs (videoId : String) : SegPath := ["tmp", videoId ++ "_input.mp4"]

/-- The temp output path `/tmp/<id>_output.mp4`. -/
def outputSegs (videoId : String) : SegPath := ["tmp", videoId ++ "_output.mp4"]

/-- The final stored filename `<id>.mp4`. -/
def finalName (videoId : String) : String := videoId ++ ".mp4"

/-- The final stored path inside the storage directory. -/
def finalSegs (videoId : String) : SegPath := videosSegs ++ [finalName videoId]

/-- The filesystem state at the moment `trim_video` enters its except block
after a failed transcode step: the temp input holds the downloaded bytes and
the temp output holds whatever the failed step left behind. -/
def failState (fs : Fs) (vid : String) (now : Int) (content : List Nat)
    (stray : Option (List Nat)) : Fs :=
  match stray with
  | some c =>
    Fs.write (Fs.write fs (inputSegs vid) (Entry.file now content)) (outputSegs vid)
      (Entry.file now c)
  | none => Fs.write fs (inputSegs vid) (Entry.file now content)

/-- The public URL the handler advertises for a stored file. -/
def hostedUrlPrefix : String :=
  "https://just-determination-production-fea7.up.railway.app/video/"

/-- One `if os.path.exists(p): os.remove(p)` step of the handler's error
path: nothing happens when the path is absent; otherwise the remove either
succeeds or raises with the oracle's message. -/
def tryRemoveIfExists (fs : Fs) (p : SegPath) (rm : SegPath → Option String) :
    Fs × Option String :=
  if Fs.pathExists fs p then
    match rm p with
    | some e => (fs, some e)
    | none => (Fs.remove fs p, none)
  else (fs, none)

/-- The `except` block of `trim_video`: remove the temp input if present,
then the temp output if present, then re-raise the original error as an HTTP
500.  The removes are not guarded, so an error raised by either remove
escapes the handler at that point, skipping the remaining cleanup. -/
def exceptBlock (fs : Fs) (inP outP : SegPath) (rm : SegPath → Option String)
    (origDetail : String) : Fs × HandlerResult TrimResponse :=
  match tryRemoveIfExists fs inP rm with
  | (fs1, some e) => (fs1, HandlerResult.uncaught e)
  | (fs1, none) =>
    match tryRemoveIfExists fs1 outP rm with
    | (fs2, some e) => (fs2, HandlerResult.uncaught e)
    | (fs2, none) => (fs2, HandlerResult.httpError 500 origDetail)

/-- The handler of POST /trim: download the source to the temp input path, run the
transcoder to the temp output path, move the output into the storage
directory under `<id>.mp4`, and remove the temp input; any failure lands in
the `except` block.  `videoId` stands for the freshly generated UUID4 and
`now` for the wall-clock time stamped on written files. -/
def trim_video (fs : Fs) (videoId : String) (env : TrimEnv) (_req : TrimRequest) (now : Int) :
    Fs × HandlerResult TrimResponse :=
  let inP := inputSegs videoId
  let outP := outputSegs videoId
  match env.fetch with
  | Except.error e => exceptBlock fs inP outP env.removeFails e
  | Except.ok content =>
    let fs1 := Fs.write fs inP (Entry.file now content)
    match env.transcode with
    | TranscodeOutcome.fail stderr stray =>
      let fs2 :=
        match stray with
        | some c => Fs.write fs1 outP (Entry.file now c)
        | none => fs1
      exceptBlock fs2 inP outP env.removeFails ("FFmpeg failed: " ++ stderr)
    | TranscodeOutcome.raised msg stray =>
      let fs2 :=
        match stray with
        | some c => Fs.write fs1 outP (Entry.file now c)
        | none => fs1
      exceptBlock fs2 inP outP env.removeFails msg
    | TranscodeOutcome.ok out =>
      let fs2 := Fs.write fs1 outP (Entry.file now out)
      let fs3 := Fs.move fs2 outP (finalSegs videoId)
      match env.removeFails inP with
      | some e => exceptBlock fs3 inP outP env.removeFails e
      | none =>
        (Fs.remove fs3 inP,
          HandlerResult.ok
            { success := true,
              video_url := hostedUrlPrefix ++ finalName videoId,
              message := "Video trimmed and hosted successfully" })

/-- The all-calls-succeed oracle for per-name sweep failures. -/
def benign : String → Bool := fun _ => false

/-- A storage directory where the first listed file cannot be stat'ed and the
second is eligible for deletion (age 7200 s). -/
def fsSweepBug : Fs :=
  [(["app", "videos", "bad.mp4"], Entry.file 0 [1]),
   (["app", "videos", "old.mp4"], Entry.file 0 [2])]

/-- A storage directory with one stale file (age 7200 s at `now = 7200`), one
fresh file (age 1200 s) and one subdirectory. -/
def fsSweep : Fs :=
  [(["app", "videos", "old.mp4"], Entry.file 0 [1]),
   (["app", "videos", "new.mp4"], Entry.file 6000 [2]),
   (["app", "videos", "sub"], Entry.dir)]

/-- A storage directory holding a non-mp4 file, for the retrieval claims. -/
def fsPlain : Fs := [(["app", "videos", "notes.txt"], Entry.file 0 [1, 2])]

/-- A storage directory whose only entry is a subdirectory. -/
def fsDirOnly : Fs := [(["app", "videos", "sub"], Entry.dir)]

/-- An environment in which download and transcode both succeed and no
cleanup call fails. -/
def envOk : TrimEnv :=
  { fetch := Except.ok [7, 7], transcode := TranscodeOutcome.ok [8, 8],
    removeFails := fun _ => none }

/-- An environment in which the download fails. -/
def envFetchFail : TrimEnv :=
  { fetch := Except.error "connection refused", transcode := TranscodeOutcome.ok [],
    removeFails := fun _ => none }

/-- A remove oracle under which deleting `/tmp/v_input.mp4` raises. -/
def rmV : SegPath → Option String :=
  fun p => if p = inputSegs "v" then some "Permission denied" else none

/-- An environment in which the transcoder fails leaving a half-written
output file, and removing the temp input raises. -/
def envCleanupFail : TrimEnv :=
  { fetch := Except.ok [1], transcode := TranscodeOutcome.fail "boom" (some [2]),
    removeFails := rmV }

/-- The trim request of the specification's end-to-end scenario. -/
def reqEx : TrimRequest :=
  { video_url := "http://example.com/v.mp4", start_time := 2, end_time := 9,
    fade_duration := 1/2 }

/-- The storage state after three successful trims from an empty directory
and no sweeps. -/
def fsAfterThreeTrims : Fs :=
  (trim_video (trim_video (trim_video [] "a" envOk reqEx 0).1 "b" envOk reqEx 0).1
    "c" envOk reqEx 0).1

-- Sanity check: the embedded resolution agrees with the source constant.
theorem resolve_videos_dir : resolve VIDEOS_DIR = videosSegs := by decide

theorem Fs.lookup_remove (fs : Fs) (q p : SegPath) :
    Fs.lookup (Fs.remove fs q) p = if p = q then none else Fs.lookup fs p := by
  induction fs with
  | nil => simp [Fs.remove, Fs.lookup]
  | cons a rest ih =>
    obtain ⟨r, e⟩ := a
    by_cases hrq : r = q
    · subst hrq
      by_cases hpq : p = r
      · subst hpq
        simp [Fs.remove, Fs.lookup, ih]
      · simp [Fs.remove, Fs.lookup, hpq, ih]
    · by_cases hpr : p = r
      · subst hpr
        simp [Fs.remove, Fs.lookup, hrq, Ne.symm hrq]
      · simp [Fs.remove, Fs.lookup, hrq, hpr, ih]

theorem Fs.remove_of_lookup_none (fs : Fs) (p : SegPath) (h : Fs.lookup fs p = none) :
    Fs.remove fs p = fs := by
  induction fs with
  | nil => rfl
  | cons a rest ih =>
    obtain ⟨r, e⟩ := a
    by_cases hpr : p = r
    · subst hpr
      simp [Fs.lookup] at h
    · simp [Fs.lookup, hpr] at h
      simp [Fs.remove, Ne.symm hpr, ih h]

theorem Fs.lookup_mem (fs : Fs) (p : SegPath) (e : Entry) (h : Fs.lookup fs p = some e) :
    (p, e) ∈ fs := by
  induction fs with
  | nil => simp [Fs.lookup] at h
  | cons a rest ih =>
    obtain ⟨r, e'⟩ := a
    by_cases hpr : p = r
    · subst hpr
      simp [Fs.lookup] at h
      simp [h]
    · simp [Fs.lookup, hpr] at h
      exact List.mem_cons_of_mem _ (ih h)

theorem Fs.lookup_ne_none_of_mem (fs : Fs) (p : SegPath) (e : Entry)
    (h : (p, e) ∈ fs) : Fs.lookup fs p ≠ none := by
  induction fs with
  | nil => simp at h
  | cons a rest ih =>
    obtain ⟨r, e'⟩ := a
    by_cases hpr : p = r
    · simp [Fs.lookup, hpr]
    · rcases List.mem_cons.mp h with hh | hh
      · exact absurd (congrArg Prod.fst hh) hpr
      · simpa [Fs.lookup, hpr] using ih hh

theorem childName_append (d : SegPath) (n : String) : childName d (d ++ [n]) = some n := by
  simp [childName, List.take_left, List.getLast?_concat]

theorem childName_eq_some (d p : SegPath) (n : String) (h : childName d p = some n) :
    p = d ++ [n] := by
  unfold childName at h
  by_cases hc : p.take d.length = d ∧ p.length = d.length + 1
  · rw [if_pos hc] at h
    obtain ⟨htake, hlen⟩ := hc
    have hdrop : (p.drop d.length).length = 1 := by
      rw [List.length_drop, hlen]
      omega
    obtain ⟨a, ha⟩ := List.length_eq_one.mp hdrop
    have hp : p = d ++ [a] := by
      conv_lhs => rw [← List.take_append_drop d.length p]
      rw [htake, ha]
    rw [hp, List.getLast?_concat] at h
    rw [hp, Option.some_inj.mp h]
  · rw [if_neg hc] at h
    exact absurd h (by simp)

theorem mem_children_of_lookup (fs : Fs) (d : SegPath) (n : String) (e : Entry)
    (h : Fs.lookup fs (d ++ [n]) = some e) : n ∈ Fs.children fs d :=
  List.mem_filterMap.mpr ⟨(d ++ [n], e), Fs.lookup_mem _ _ _ h, childName_append _ _⟩

theorem lookup_ne_none_of_mem_children (fs : Fs) (d : SegPath) (n : String)
    (h : n ∈ Fs.children fs d) : Fs.lookup fs (d ++ [n]) ≠ none := by
  obtain ⟨pe, hmem, hc⟩ := List.mem_filterMap.mp h
  have hp : pe.1 = d ++ [n] := childName_eq_some _ _ _ hc
  exact hp ▸ Fs.lookup_ne_none_of_mem fs pe.1 pe.2 (by simpa using hmem)

theorem children_nodup (fs : Fs) (d : SegPath) (h : (fs.map Prod.fst).Nodup) :
    (Fs.children fs d).Nodup := by
  induction fs with
  | nil => simp [Fs.children]
  | cons a rest ih =>
    rw [List.map_cons, List.nodup_cons] at h
    cases hc : childName d a.1 with
    | none => simpa [Fs.children, List.filterMap_cons, hc] using ih h.2
    | some n =>
      rw [Fs.children, List.filterMap_cons, hc, List.nodup_cons]
      refine ⟨fun hmem => ?_, ih h.2⟩
      obtain ⟨pe, hpe, hcn⟩ := List.mem_filterMap.mp hmem
      have h1 : pe.1 = d ++ [n] := childName_eq_some _ _ _ hcn
      have h2 : a.1 = d ++ [n] := childName_eq_some _ _ _ hc
      exact h.1 (h2 ▸ h1 ▸ List.mem_map_of_mem Prod.fst hpe)

theorem sweepLoop_benign (now : Int) (names : List String) :
    ∀ (fs : Fs) (p : SegPath), names.Nodup →
      Fs.lookup (sweepLoop now benign benign fs names).1 p =
        if (names.any fun n => decide (p = videosSegs ++ [n])) &&
            isStaleEntry (Fs.lookup fs p) now
        then none else Fs.lookup fs p := by
  induction names with
  | nil =>
    intro fs p _
    simp [sweepLoop]
  | cons n rest ih =>
    intro fs p hnd
    rw [List.nodup_cons] at hnd
    cases hl : Fs.lookup fs (videosSegs ++ [n]) with
    | none =>
      rw [show sweepLoop now benign benign fs (n :: rest)
            = sweepLoop now benign benign fs rest by simp [sweepLoop, hl]]
      rw [ih fs p hnd.2]
      by_cases hp : p = videosSegs ++ [n]
      · simp [hp, hl, isStaleEntry]
      · simp [hp]
    | some e =>
      cases e with
      | dir =>
        rw [show sweepLoop now benign benign fs (n :: rest)
              = sweepLoop now benign benign fs rest by simp [sweepLoop, hl]]
        rw [ih fs p hnd.2]
        by_cases hp : p = videosSegs ++ [n]
        · simp [hp, hl, isStaleEntry]
        · simp [hp]
      | file m c =>
        by_cases hm : now - m > 3600
        · rw [show sweepLoop now benign benign fs (n :: rest)
                = sweepLoop now benign benign (Fs.remove fs (videosSegs ++ [n])) rest by
              simp [sweepLoop, hl, benign, hm]]
          rw [ih (Fs.remove fs (videosSegs ++ [n])) p hnd.2]
          by_cases hp : p = videosSegs ++ [n]
          · subst hp
            rw [Fs.lookup_remove]
            simp [hl, isStaleEntry, hm]
          · rw [Fs.lookup_remove, if_neg hp]
            simp [hp]
        · rw [show sweepLoop now benign benign fs (n :: rest)
                = sweepLoop now benign benign fs rest by simp [sweepLoop, hl, benign, hm]]
          rw [ih fs p hnd.2]
          by_cases hp : p = videosSegs ++ [n]
          · simp [hp, hl, isStaleEntry, hm]
          · simp [hp]

theorem any_child_eq_childName (fs : Fs) (d p : SegPath) (e : Entry)
    (hl : Fs.lookup fs p = some e) :
    ((Fs.children fs d).any fun n => decide (p = d ++ [n])) = (childName d p).isSome := by
  cases hc : childName d p with
  | some n =>
    have hp : p = d ++ [n] := childName_eq_some _ _ _ hc
    subst hp
    simp only [Option.isSome_some]
    rw [List.any_eq_true]
    exact ⟨n, mem_children_of_lookup fs d n e hl, by simp⟩
  | none =>
    simp only [Option.isSome_none]
    rw [List.any_eq_false]
    intro n _
    simp only [decide_eq_true_eq]
    intro hp
    rw [hp, childName_append] at hc
    exact Option.noConfusion hc

theorem cleanup_benign_lookup (fs : Fs) (now : Int)
    (hnd : (fs.map Prod.fst).Nodup) (p : SegPath) :
    Fs.lookup (cleanup_old_videos fs now false benign benign).1 p =
      if staleAt fs now p then none else Fs.lookup fs p := by
  rw [show (cleanup_old_videos fs now false benign benign)
        = sweepLoop now benign benign fs (Fs.children fs videosSegs) by
      simp [cleanup_old_videos]]
  rw [sweepLoop_benign now (Fs.children fs videosSegs) fs p (children_nodup fs _ hnd)]
  cases hs : isStaleEntry (Fs.lookup fs p) now with
  | false => simp [staleAt, hs]
  | true =>
    cases hl : Fs.lookup fs p with
    | none => rw [hl] at hs; simp [isStaleEntry] at hs
    | some e =>
      rw [hl] at hs
      rw [staleAt, hl, hs, any_child_eq_childName fs videosSegs p e hl]

theorem sweepLoop_no_stale (now : Int) (names : List String) :
    ∀ fs : Fs,
      (∀ n ∈ names, isStaleEntry (Fs.lookup fs (videosSegs ++ [n])) now = false) →
      sweepLoop now benign benign fs names = (fs, none) := by
  induction names with
  | nil =>
    intro fs _
    rfl
  | cons n rest ih =>
    intro fs h
    have hn := h n (List.mem_cons_self n rest)
    have hrest : ∀ m ∈ rest, isStaleEntry (Fs.lookup fs (videosSegs ++ [m])) now = false :=
      fun m hm => h m (List.mem_cons_of_mem n hm)
    cases hl : Fs.lookup fs (videosSegs ++ [n]) with
    | none => simpa [sweepLoop, hl] using ih fs hrest
    | some e =>
      cases e with
      | dir => simpa [sweepLoop, hl] using ih fs hrest
      | file m c =>
        have hm : ¬ now - m > 3600 := by
          rw [hl] at hn
          simpa [isStaleEntry] using hn
        simpa [sweepLoop, hl, benign, hm] using ih fs hrest

/-- C1: requesting `../secret` makes `serve_video` serve the file at
`/app/secret`, which lies outside the storage directory: the handler performs
no sanitization, so a path-traversal filename escapes `VIDEOS_DIR`. -/
theorem serve_video_traversal_bug :
    serve_video fsWithSecret "../secret" =
      HandlerResult.ok { path := "/app/videos/../secret", mediaType := "video/mp4" } ∧
    resolve "/app/videos/../secret" = ["app", "secret"] ∧
    insideStorage (resolve "/app/videos/../secret") = false ∧
    servedBytes fsWithSecret "/app/videos/../secret" = some [9, 9] := by
  refine ⟨by decide, by decide, by decide, by decide⟩

/-- C10: whenever the joined path exists, `serve_video` answers with media
type `video/mp4`, whatever the entry's name or content; when it does not
exist, it answers 404 "Video not found". -/
theorem serve_video_always_mp4 (fs : Fs) (filename : String) :
    (Fs.pathExists fs (resolve (osPathJoin VIDEOS_DIR filename)) = true →
      serve_video fs filename =
        HandlerResult.ok { path := osPathJoin VIDEOS_DIR filename, mediaType := "video/mp4" }) ∧
    (Fs.pathExists fs (resolve (osPathJoin VIDEOS_DIR filename)) = false →
      serve_video fs filename = HandlerResult.httpError 404 "Video not found") := by
  constructor <;> intro h <;> simp [serve_video, h]

/-- Witness for C10: a stored `.txt` file is still served as `video/mp4`,
and a missing name yields 404. -/
theorem serve_video_always_mp4_witness :
    serve_video fsPlain "notes.txt" =
      HandlerResult.ok { path := osPathJoin VIDEOS_DIR "notes.txt", mediaType := "video/mp4" } ∧
    serve_video fsPlain "missing.mp4" = HandlerResult.httpError 404 "Video not found" :=
  ⟨(serve_video_always_mp4 fsPlain "notes.txt").1 (by decide),
   (serve_video_always_mp4 fsPlain "missing.mp4").2 (by decide)⟩

/-- C5: one error-free sweep pass deletes exactly the direct children of the
storage directory that are regular files strictly older than 3600 seconds,
and leaves the entry at every other path unchanged. -/
theorem cleanup_deletes_exactly_stale (fs : Fs) (now : Int)
    (hnd : (fs.map Prod.fst).Nodup) (p : SegPath) :
    Fs.lookup (cleanup_old_videos fs now false benign benign).1 p =
      if staleAt fs now p then none else Fs.lookup fs p :=
  cleanup_benign_lookup fs now hnd p

/-- Witness for C5: at `now = 7200`, the 7200-second-old file is deleted
while the 1200-second-old file and the subdirectory survive. -/
theorem cleanup_deletes_exactly_stale_witness :
    Fs.lookup (cleanup_old_videos fsSweep 7200 false benign benign).1
        (videosSegs ++ ["old.mp4"]) = none ∧
    Fs.lookup (cleanup_old_videos fsSweep 7200 false benign benign).1
        (videosSegs ++ ["new.mp4"]) = some (Entry.file 6000 [2]) ∧
    Fs.lookup (cleanup_old_videos fsSweep 7200 false benign benign).1
        (videosSegs ++ ["sub"]) = some Entry.dir := by
  refine ⟨?_, ?_, ?_⟩
  · rw [cleanup_deletes_exactly_stale fsSweep 7200 (by decide) (videosSegs ++ ["old.mp4"])]
    decide
  · rw [cleanup_deletes_exactly_stale fsSweep 7200 (by decide) (videosSegs ++ ["new.mp4"])]
    decide
  · rw [cleanup_deletes_exactly_stale fsSweep 7200 (by decide) (videosSegs ++ ["sub"])]
    decide

/-- C6: the error-free sweep is idempotent: running it again at the same
instant, with no new files, deletes nothing further. -/
theorem cleanup_idempotent (fs : Fs) (now : Int) (hnd : (fs.map Prod.fst).Nodup) :
    cleanup_old_videos (cleanup_old_videos fs now false benign benign).1 now
        false benign benign
      = ((cleanup_old_videos fs now false benign benign).1, none) := by
  rw [show cleanup_old_videos (cleanup_old_videos fs now false benign benign).1 now
          false benign benign
        = sweepLoop now benign benign (cleanup_old_videos fs now false benign benign).1
            (Fs.children (cleanup_old_videos fs now false benign benign).1 videosSegs) by
      simp [cleanup_old_videos]]
  apply sweepLoop_no_stale
  intro n _
  have hkey := cleanup_benign_lookup fs now hnd (videosSegs ++ [n])
  cases hst : staleAt fs now (videosSegs ++ [n]) with
  | true =>
    rw [hst, if_pos rfl] at hkey
    rw [hkey]
    rfl
  | false =>
    rw [hst, if_neg (by simp)] at hkey
    rw [hkey]
    cases hs : isStaleEntry (Fs.lookup fs (videosSegs ++ [n])) now with
    | false => rfl
    | true =>
      exfalso
      have : staleAt fs now (videosSegs ++ [n]) = true := by
        rw [staleAt, childName_append, hs]
        rfl
      rw [hst] at this
      exact Bool.noConfusion this

/-- Witness for C6 at a concrete directory state. -/
theorem cleanup_idempotent_witness :
    cleanup_old_videos (cleanup_old_videos fsSweep 7200 false benign benign).1 7200
        false benign benign
      = ((cleanup_old_videos fsSweep 7200 false benign benign).1, none) :=
  cleanup_idempotent fsSweep 7200 (by decide)

/-- C3 fails on the code: in `fsSweepBug` the file `old.mp4` is eligible for
deletion (age 7200 s), but because stat of the earlier-listed `bad.mp4`
raises and the only handler wraps the whole loop, the pass aborts and
`old.mp4` survives; the error is merely logged. -/
theorem cleanup_single_failure_aborts_scan :
    staleAt fsSweepBug 7200 (videosSegs ++ ["old.mp4"]) = true ∧
    Fs.lookup (cleanup_old_videos fsSweepBug 7200 false (fun n => n == "bad.mp4") benign).1
        (videosSegs ++ ["old.mp4"]) = some (Entry.file 0 [2]) ∧
    (cleanup_old_videos fsSweepBug 7200 false (fun n => n == "bad.mp4") benign).2
      = some "stat failed: bad.mp4" := by
  refine ⟨by decide, by decide, by decide⟩

/-- C9: `cleanup_old_videos` never propagates an error — whatever fails
inside the pass is swallowed — so `GET /cleanup` always returns the success
payload, whose `videos_remaining` is the storage directory's entry count
after the pass. -/
theorem manual_cleanup_always_ok (fs : Fs) (now : Int) (listF : Bool)
    (statF remF : String → Bool) :
    (manual_cleanup fs now listF statF remF).2 =
      HandlerResult.ok
        { message := "Cleanup triggered",
          videos_remaining :=
            (Fs.children (cleanup_old_videos fs now listF statF remF).1 videosSegs).length } :=
  rfl

theorem Fs.remove_cons_eq (fs : Fs) (p : SegPath) (e : Entry) :
    Fs.remove ((p, e) :: fs) p = Fs.remove fs p := by
  simp [Fs.remove]

theorem Fs.remove_cons_ne (fs : Fs) (q p : SegPath) (e : Entry) (h : q ≠ p) :
    Fs.remove ((q, e) :: fs) p = (q, e) :: Fs.remove fs p := by
  simp [Fs.remove, h]

theorem Fs.lookup_cons_self (fs : Fs) (p : SegPath) (e : Entry) :
    Fs.lookup ((p, e) :: fs) p = some e := by
  simp [Fs.lookup]

theorem Fs.lookup_cons_ne (fs : Fs) (q p : SegPath) (e : Entry) (h : p ≠ q) :
    Fs.lookup ((q, e) :: fs) p = Fs.lookup fs p := by
  simp [Fs.lookup, h]

theorem Fs.lookup_none_of_not_exists (fs : Fs) (p : SegPath)
    (h : ¬ Fs.pathExists fs p = true) : Fs.lookup fs p = none := by
  rw [Fs.pathExists] at h
  cases hl : Fs.lookup fs p with
  | none => rfl
  | some e => rw [hl] at h; simp at h

theorem string_append_ne (s a b : String) (h : a.data ≠ b.data) : s ++ a ≠ s ++ b := by
  intro hc
  apply h
  have hd := congrArg String.data hc
  rw [String.data_append, String.data_append] at hd
  exact List.append_cancel_left hd

theorem inputSegs_ne_outputSegs (vid : String) : inputSegs vid ≠ outputSegs vid := by
  rw [inputSegs, outputSegs]
  intro h
  have h2 : vid ++ "_input.mp4" = vid ++ "_output.mp4" := by
    simpa using h
  exact string_append_ne vid "_input.mp4" "_output.mp4" (by decide) h2

theorem finalSegs_ne_inputSegs (vid : String) : finalSegs vid ≠ inputSegs vid := by
  intro h
  have := congrArg List.length h
  simp [finalSegs, inputSegs, videosSegs] at this

theorem finalSegs_ne_outputSegs (vid : String) : finalSegs vid ≠ outputSegs vid := by
  intro h
  have := congrArg List.length h
  simp [finalSegs, outputSegs, videosSegs] at this

theorem tryRemove_benign (fs : Fs) (p : SegPath) (rm : SegPath → Option String)
    (h : rm p = none) :
    tryRemoveIfExists fs p rm = (Fs.remove fs p, none) := by
  simp only [tryRemoveIfExists, h]
  by_cases hp : Fs.pathExists fs p = true
  · rw [if_pos hp]
  · rw [if_neg hp, Fs.remove_of_lookup_none fs p (Fs.lookup_none_of_not_exists fs p hp)]

theorem exceptBlock_benign (fs : Fs) (inP outP : SegPath) (rm : SegPath → Option String)
    (orig : String) (hrm1 : rm inP = none) (hrm2 : rm outP = none) :
    exceptBlock fs inP outP rm orig =
      (Fs.remove (Fs.remove fs inP) outP, HandlerResult.httpError 500 orig) := by
  simp only [exceptBlock, tryRemove_benign fs inP rm hrm1,
    tryRemove_benign (Fs.remove fs inP) outP rm hrm2]

theorem trim_video_success (fs : Fs) (vid : String) (env : TrimEnv) (req : TrimRequest)
    (now : Int) (content out : List Nat)
    (hf : env.fetch = Except.ok content)
    (ht : env.transcode = TranscodeOutcome.ok out)
    (hrm : env.removeFails (inputSegs vid) = none)
    (hin : Fs.lookup fs (inputSegs vid) = none)
    (hout : Fs.lookup fs (outputSegs vid) = none)
    (hfin : Fs.lookup fs (finalSegs vid) = none) :
    trim_video fs vid env req now =
      ((finalSegs vid, Entry.file now out) :: fs,
        HandlerResult.ok
          { success := true, video_url := hostedUrlPrefix ++ finalName vid,
            message := "Video trimmed and hosted successfully" }) := by
  have hio := inputSegs_ne_outputSegs vid
  have hfi := finalSegs_ne_inputSegs vid
  simp only [trim_video, hf, ht, hrm, Fs.write, Fs.move]
  rw [Fs.remove_of_lookup_none fs _ hin]
  rw [Fs.remove_cons_ne fs _ _ _ hio]
  rw [Fs.remove_of_lookup_none fs _ hout]
  rw [Fs.lookup_cons_self]
  have r1 : ∀ (fs' : Fs) (e : Entry),
      Fs.remove ((inputSegs vid, e) :: fs') (outputSegs vid)
        = (inputSegs vid, e) :: Fs.remove fs' (outputSegs vid) :=
    fun fs' e => Fs.remove_cons_ne fs' _ _ e hio
  have r2 : ∀ (fs' : Fs) (e : Entry),
      Fs.remove ((inputSegs vid, e) :: fs') (finalSegs vid)
        = (inputSegs vid, e) :: Fs.remove fs' (finalSegs vid) :=
    fun fs' e => Fs.remove_cons_ne fs' _ _ e (Ne.symm hfi)
  have r3 : ∀ (fs' : Fs) (e : Entry),
      Fs.remove ((finalSegs vid, e) :: fs') (inputSegs vid)
        = (finalSegs vid, e) :: Fs.remove fs' (inputSegs vid) :=
    fun fs' e => Fs.remove_cons_ne fs' _ _ e hfi
  simp only [Fs.remove_cons_eq, r1, r2, r3, Fs.remove_of_lookup_none fs _ hin,
    Fs.remove_of_lookup_none fs _ hout, Fs.remove_of_lookup_none fs _ hfin]

theorem trim_failBranch_eq (fs : Fs) (vid : String) (rm : SegPath → Option String)
    (orig : String) (now : Int) (content : List Nat) (stray : Option (List Nat))
    (hrm : ∀ p, rm p = none)
    (hin : Fs.lookup fs (inputSegs vid) = none)
    (hout : Fs.lookup fs (outputSegs vid) = none) :
    exceptBlock (failState fs vid now content stray) (inputSegs vid) (outputSegs vid) rm orig
      = (fs, HandlerResult.httpError 500 orig) := by
  have hio := inputSegs_ne_outputSegs vid
  cases stray with
  | none =>
    show exceptBlock (Fs.write fs (inputSegs vid) (Entry.file now content))
        (inputSegs vid) (outputSegs vid) rm orig = (fs, HandlerResult.httpError 500 orig)
    rw [exceptBlock_benign _ _ _ _ _ (hrm _) (hrm _)]
    simp only [Fs.write, Fs.remove_cons_eq, Fs.remove_of_lookup_none fs _ hin,
      Fs.remove_of_lookup_none fs _ hout]
  | some c =>
    show exceptBlock
        (Fs.write (Fs.write fs (inputSegs vid) (Entry.file now content)) (outputSegs vid)
          (Entry.file now c))
        (inputSegs vid) (outputSegs vid) rm orig = (fs, HandlerResult.httpError 500 orig)
    rw [exceptBlock_benign _ _ _ _ _ (hrm _) (hrm _)]
    have r1 : ∀ (fs' : Fs) (e : Entry),
        Fs.remove ((inputSegs vid, e) :: fs') (outputSegs vid)
          = (inputSegs vid, e) :: Fs.remove fs' (outputSegs vid) :=
      fun fs' e => Fs.remove_cons_ne fs' _ _ e hio
    have r2 : ∀ (fs' : Fs) (e : Entry),
        Fs.remove ((outputSegs vid, e) :: fs') (inputSegs vid)
          = (outputSegs vid, e) :: Fs.remove fs' (inputSegs vid) :=
      fun fs' e => Fs.remove_cons_ne fs' _ _ e (Ne.symm hio)
    simp only [Fs.write, Fs.remove_cons_eq, r1, r2, Fs.remove_of_lookup_none fs _ hin,
      Fs.remove_of_lookup_none fs _ hout]

theorem exceptBlock_first_remove_raises (fs : Fs) (inP outP : SegPath)
    (rm : SegPath → Option String) (orig e : String)
    (hex : Fs.pathExists fs inP = true) (hrm : rm inP = some e) :
    exceptBlock fs inP outP rm orig = (fs, HandlerResult.uncaught e) := by
  simp [exceptBlock, tryRemoveIfExists, hex, hrm]

/-- C7: with valid parameters, a fresh job id and both external steps
succeeding, `POST /trim` returns the success payload and the filesystem gains
exactly the one final stored file: the storage listing grows by exactly that
name, and neither temp path remains on disk. -/
theorem trim_success_adds_exactly_one (fs : Fs) (vid : String) (env : TrimEnv)
    (req : TrimRequest) (now : Int) (content out : List Nat)
    (hs0 : 0 ≤ req.start_time) (hse : req.start_time < req.end_time)
    (hf0 : 0 ≤ req.fade_duration)
    (hfd : req.fade_duration ≤ req.end_time - req.start_time)
    (hf : env.fetch = Except.ok content)
    (ht : env.transcode = TranscodeOutcome.ok out)
    (hrm : env.removeFails (inputSegs vid) = none)
    (hin : Fs.lookup fs (inputSegs vid) = none)
    (hout : Fs.lookup fs (outputSegs vid) = none)
    (hfin : Fs.lookup fs (finalSegs vid) = none) :
    (trim_video fs vid env req now).1 = (finalSegs vid, Entry.file now out) :: fs ∧
    (trim_video fs vid env req now).2 =
      HandlerResult.ok
        { success := true, video_url := hostedUrlPrefix ++ finalName vid,
          message := "Video trimmed and hosted successfully" } ∧
    Fs.children (trim_video fs vid env req now).1 videosSegs
      = finalName vid :: Fs.children fs videosSegs ∧
    Fs.lookup (trim_video fs vid env req now).1 (inputSegs vid) = none ∧
    Fs.lookup (trim_video fs vid env req now).1 (outputSegs vid) = none := by
  have h := trim_video_success fs vid env req now content out hf ht hrm hin hout hfin
  have hc : childName videosSegs (finalSegs vid) = some (finalName vid) :=
    childName_append videosSegs (finalName vid)
  refine ⟨by rw [h], by rw [h], ?_, ?_, ?_⟩
  · simp only [h]
    simp only [Fs.children, List.filterMap_cons, hc]
  · simp only [h]
    rw [Fs.lookup_cons_ne fs _ _ _ (Ne.symm (finalSegs_ne_inputSegs vid))]
    exact hin
  · simp only [h]
    rw [Fs.lookup_cons_ne fs _ _ _ (Ne.symm (finalSegs_ne_outputSegs vid))]
    exact hout

/-- Witness for C7: one successful trim from an empty filesystem stores
exactly the one file `a.mp4`. -/
theorem trim_success_adds_exactly_one_witness :
    (trim_video [] "a" envOk reqEx 0).1 = [(finalSegs "a", Entry.file 0 [8, 8])] ∧
    Fs.children (trim_video [] "a" envOk reqEx 0).1 videosSegs = [finalName "a"] := by
  have h := trim_success_adds_exactly_one [] "a" envOk reqEx 0 [7, 7] [8, 8]
    (by norm_num [reqEx]) (by norm_num [reqEx]) (by norm_num [reqEx]) (by norm_num [reqEx])
    rfl rfl rfl rfl rfl rfl
  exact ⟨h.1, by rw [h.2.2.1]; rfl⟩

/-- C4: when the fetch fails, or when the transcoder exits non-zero or its
invocation raises, the handler reports HTTP 500 and the filesystem is exactly
as before the request: no new file in the storage directory, no temp file
left on disk. -/
theorem trim_failure_leaves_nothing (fs : Fs) (vid : String) (env : TrimEnv)
    (req : TrimRequest) (now : Int)
    (hrm : ∀ p, env.removeFails p = none)
    (hin : Fs.lookup fs (inputSegs vid) = none)
    (hout : Fs.lookup fs (outputSegs vid) = none)
    (hfail : (∃ e, env.fetch = Except.error e) ∨ env.transcode.succeeded = false) :
    (trim_video fs vid env req now).1 = fs ∧
    ∃ d, (trim_video fs vid env req now).2 = HandlerResult.httpError 500 d := by
  cases hfetch : env.fetch with
  | error e =>
    have hres : trim_video fs vid env req now =
        (Fs.remove (Fs.remove fs (inputSegs vid)) (outputSegs vid),
          HandlerResult.httpError 500 e) := by
      simp only [trim_video, hfetch, exceptBlock_benign fs _ _ _ e (hrm _) (hrm _)]
    rw [hres, Fs.remove_of_lookup_none fs _ hin, Fs.remove_of_lookup_none fs _ hout]
    exact ⟨rfl, e, rfl⟩
  | ok content =>
    have htr : env.transcode.succeeded = false := by
      rcases hfail with ⟨e, he⟩ | h
      · rw [hfetch] at he
        exact absurd he (by simp)
      · exact h
    cases htrc : env.transcode with
    | ok out =>
      rw [htrc] at htr
      exact absurd htr (by simp [TranscodeOutcome.succeeded])
    | fail stderr stray =>
      have hres : trim_video fs vid env req now =
          (fs, HandlerResult.httpError 500 ("FFmpeg failed: " ++ stderr)) := by
        simp only [trim_video, hfetch, htrc]
        exact trim_failBranch_eq fs vid env.removeFails _ now content stray hrm hin hout
      rw [hres]
      exact ⟨rfl, _, rfl⟩
    | raised msg stray =>
      have hres : trim_video fs vid env req now =
          (fs, HandlerResult.httpError 500 msg) := by
        simp only [trim_video, hfetch, htrc]
        exact trim_failBranch_eq fs vid env.removeFails _ now content stray hrm hin hout
      rw [hres]
      exact ⟨rfl, msg, rfl⟩

/-- Witness for C4: a failed download leaves the filesystem untouched. -/
theorem trim_failure_leaves_nothing_witness :
    (trim_video fsPlain "v" envFetchFail reqEx 0).1 = fsPlain ∧
    ∃ d, (trim_video fsPlain "v" envFetchFail reqEx 0).2 = HandlerResult.httpError 500 d :=
  trim_failure_leaves_nothing fsPlain "v" envFetchFail reqEx 0 (fun _ => rfl)
    (by decide) (by decide) (Or.inl ⟨"connection refused", rfl⟩)

/-- C2 fails on the code: with the transcoder failed (original error
"FFmpeg failed: boom") and removal of the temp input raising, the handler
surfaces the cleanup error in place of the original one, and both temp files
(including the half-written output, whose removal is never attempted) are
left on disk. -/
theorem trim_cleanup_error_masks_original :
    (trim_video [] "v" envCleanupFail reqEx 0).2 = HandlerResult.uncaught "Permission denied" ∧
    (trim_video [] "v" envCleanupFail reqEx 0).2
      ≠ HandlerResult.httpError 500 ("FFmpeg failed: " ++ "boom") ∧
    Fs.pathExists (trim_video [] "v" envCleanupFail reqEx 0).1 (inputSegs "v") = true ∧
    Fs.pathExists (trim_video [] "v" envCleanupFail reqEx 0).1 (outputSegs "v") = true := by
  refine ⟨by decide, by decide, by decide, by decide⟩

/-- C2 (amended): on a transcode failure the handler attempts to remove the
temp input and then the temp output before surfacing the original error as
HTTP 500, and does so when no removal fails; but an error raised while
removing the temp input is not caught: it escapes the handler, replacing the
original error, and both temp files stay on disk. -/
theorem trim_transcode_fail_state (fs : Fs) (vid : String) (rm : SegPath → Option String)
    (req : TrimRequest) (now : Int) (content : List Nat) (tr : TranscodeOutcome)
    (htr : tr.succeeded = false) :
    trim_video fs vid ⟨Except.ok content, tr, rm⟩ req now
      = exceptBlock (failState fs vid now content tr.stray) (inputSegs vid) (outputSegs vid)
          rm tr.origDetail := by
  cases tr with
  | ok out => simp [TranscodeOutcome.succeeded] at htr
  | fail stderr stray => rfl
  | raised msg stray => rfl

theorem exceptBlock_input_remove_raises (fs : Fs) (vid : String)
    (rm : SegPath → Option String) (orig : String) (now : Int) (content : List Nat)
    (stray : Option (List Nat)) (e : String)
    (hin : Fs.lookup fs (inputSegs vid) = none)
    (hout : Fs.lookup fs (outputSegs vid) = none)
    (he : rm (inputSegs vid) = some e) :
    exceptBlock (failState fs vid now content stray) (inputSegs vid) (outputSegs vid) rm orig
      = (failState fs vid now content stray, HandlerResult.uncaught e) ∧
    Fs.lookup (failState fs vid now content stray) (inputSegs vid)
      = some (Entry.file now content) ∧
    Fs.pathExists (failState fs vid now content stray) (outputSegs vid) = stray.isSome := by
  have hio := inputSegs_ne_outputSegs vid
  cases stray with
  | none =>
    refine ⟨?_, ?_, ?_⟩
    · apply exceptBlock_first_remove_raises _ _ _ rm _ e _ he
      simp [failState, Fs.write, Fs.pathExists, Fs.lookup_cons_self]
    · simp only [failState, Fs.write, Fs.lookup_cons_self]
    · simp only [failState, Fs.write, Fs.pathExists]
      rw [Fs.lookup_cons_ne _ _ _ _ (Ne.symm hio), Fs.lookup_remove]
      rw [if_neg (Ne.symm hio), hout]
      rfl
  | some c =>
    refine ⟨?_, ?_, ?_⟩
    · apply exceptBlock_first_remove_raises _ _ _ rm _ e _ he
      show Fs.pathExists (Fs.write (Fs.write fs (inputSegs vid) (Entry.file now content))
          (outputSegs vid) (Entry.file now c)) (inputSegs vid) = true
      rw [Fs.pathExists, Fs.write, Fs.lookup_cons_ne _ _ _ _ hio, Fs.lookup_remove,
        if_neg hio, Fs.write, Fs.lookup_cons_self]
      rfl
    · show Fs.lookup (Fs.write (Fs.write fs (inputSegs vid) (Entry.file now content))
          (outputSegs vid) (Entry.file now c)) (inputSegs vid) = some (Entry.file now content)
      simp only [Fs.write]
      rw [Fs.lookup_cons_ne _ _ _ _ hio, Fs.lookup_remove, if_neg hio,
        Fs.lookup_cons_self]
    · show Fs.pathExists (Fs.write (Fs.write fs (inputSegs vid) (Entry.file now content))
          (outputSegs vid) (Entry.file now c)) (outputSegs vid)
        = (some c : Option (List Nat)).isSome
      simp only [Fs.write, Fs.pathExists, Fs.lookup_cons_self]
      rfl

/-- C2 (amended): on any failed transcode step — whether the transcoder
exits non-zero or its invocation raises, e.g. times out — the handler
attempts to remove the temp input and then the temp output before surfacing
the original error as HTTP 500, and does so when no removal fails; but an
error raised while removing the temp input is not caught: it escapes the
handler, replacing the original error, and both temp files stay on disk. -/
theorem trim_cleanup_not_guarded (fs : Fs) (vid : String) (rm : SegPath → Option String)
    (req : TrimRequest) (now : Int) (content : List Nat) (tr : TranscodeOutcome)
    (htr : tr.succeeded = false)
    (hin : Fs.lookup fs (inputSegs vid) = none)
    (hout : Fs.lookup fs (outputSegs vid) = none) :
    ((∀ p, rm p = none) →
      trim_video fs vid ⟨Except.ok content, tr, rm⟩ req now
        = (fs, HandlerResult.httpError 500 tr.origDetail)) ∧
    (∀ e, rm (inputSegs vid) = some e →
      (trim_video fs vid ⟨Except.ok content, tr, rm⟩ req now).2
        = HandlerResult.uncaught e ∧
      Fs.lookup (trim_video fs vid ⟨Except.ok content, tr, rm⟩ req now).1 (inputSegs vid)
        = some (Entry.file now content) ∧
      Fs.pathExists (trim_video fs vid ⟨Except.ok content, tr, rm⟩ req now).1 (outputSegs vid)
        = tr.stray.isSome) := by
  constructor
  · intro hrm
    rw [trim_transcode_fail_state fs vid rm req now content tr htr]
    exact trim_failBranch_eq fs vid rm _ now content tr.stray hrm hin hout
  · intro e he
    rw [trim_transcode_fail_state fs vid rm req now content tr htr]
    have h := exceptBlock_input_remove_raises fs vid rm tr.origDetail now content tr.stray e
      hin hout he
    rw [h.1]
    exact ⟨rfl, h.2.1, h.2.2⟩

/-- Witness for C2 (amended): both behaviors at concrete inputs, exercising
both transcode failure modes — with no cleanup failure the original
non-zero-exit error is surfaced and the filesystem is clean; with the
invocation raising a timeout and the input removal failing, the cleanup
error escapes instead of the original one. -/
theorem trim_cleanup_not_guarded_witness :
    trim_video [] "w" ⟨Except.ok [1], TranscodeOutcome.fail "boom" none, fun _ => none⟩ reqEx 0
      = ([], HandlerResult.httpError 500 ("FFmpeg failed: " ++ "boom")) ∧
    (trim_video [] "v" ⟨Except.ok [1], TranscodeOutcome.raised "timeout expired" (some [2]),
        rmV⟩ reqEx 0).2 = HandlerResult.uncaught "Permission denied" :=
  ⟨(trim_cleanup_not_guarded [] "w" (fun _ => none) reqEx 0 [1]
      (TranscodeOutcome.fail "boom" none) rfl rfl rfl).1 (fun _ => rfl),
   ((trim_cleanup_not_guarded [] "v" rmV reqEx 0 [1]
      (TranscodeOutcome.raised "timeout expired" (some [2])) rfl rfl rfl).2
      "Permission denied" (by decide)).1⟩

/-- C8 fails on the code: the reported `videos_stored` is the length of the listing,
the count of directory entries, not of regular files: a storage directory
whose only entry is a subdirectory reports `videos_stored = 1` although its
file count is 0. -/
theorem health_miscounts_directories :
    (health fsDirOnly).videos_stored = 1 ∧ storageFileCount fsDirOnly = 0 ∧
    (health fsDirOnly).videos_stored ≠ storageFileCount fsDirOnly := by
  refine ⟨by decide, by decide, by decide⟩

/-- C8 (amended): the health endpoint only reads the directory listing and reports
`videos_stored` equal to the number of entries (of any kind) in the storage
directory; in particular, after three successful trims from an empty
directory and no sweeps it reports `videos_stored = 3`. -/
theorem health_reports_entry_count :
    (∀ fs : Fs, (health fs).videos_stored = (Fs.children fs videosSegs).length) ∧
    (health fsAfterThreeTrims).videos_stored = 3 := by
  exact ⟨fun fs => rfl, by decide⟩
